import Mathlib

/-!
Verification of the Manifold AMM / payout claims against a shallow embedding
of the repository sources.  Pure functions from the TypeScript sources are
translated into computable Lean definitions over exact rationals; JavaScript
numbers that may be NaN or infinite are modelled by the JsNum type.  Code of
the repository that is not present under src (the CPMM purchase function, the
resolved-payout calculator, the backend order validation and the limit-order
matching engine) is modelled from the specification; each such definition
carries a doc comment beginning with Modelled from the spec.
-/

namespace Manifold

/-- A JavaScript number: either a finite value (modelled exactly as a
rational) or one of the non-finite values NaN, Infinity, -Infinity. -/
inductive JsNum where
  | finite (q : ℚ)
  | nan
  | inf
  | negInf
deriving DecidableEq, Repr

/-- The JS isFinite predicate: true exactly on finite numbers. -/
def JsNum.isFinite : JsNum → Bool
  | .finite _ => true
  | _ => false

/-- The rational value of a finite JsNum (junk value 0 on non-finite ones). -/
def JsNum.toRat : JsNum → ℚ
  | .finite q => q
  | _ => 0

/-- JS addition on possibly non-finite numbers. -/
def JsNum.add : JsNum → JsNum → JsNum
  | .nan, _ => .nan
  | _, .nan => .nan
  | .inf, .negInf => .nan
  | .negInf, .inf => .nan
  | .inf, _ => .inf
  | _, .inf => .inf
  | .negInf, _ => .negInf
  | _, .negInf => .negInf
  | .finite a, .finite b => .finite (a + b)

/-- Sum of a list of JS numbers (lodash sumBy, which returns 0 on []). -/
def sumJs (l : List JsNum) : JsNum := l.foldr JsNum.add (.finite 0)

/-- One element of the payouts argument of payUsers / checkAndMergePayouts
(functions/src/utils.ts): a userId, a payout and an optional deposit. -/
structure PayoutEntry where
  userId : String
  payout : JsNum
  deposit : Option JsNum
deriving DecidableEq, Repr

/-- The merged per-user payout produced by checkAndMergePayouts. -/
structure MergedPayout where
  userId : String
  payout : JsNum
  deposit : JsNum
deriving DecidableEq, Repr

/-- The validation loop at the start of checkAndMergePayouts
(functions/src/utils.ts lines 287-294): walk the whole list and throw on the
first non-finite payout or defined non-finite deposit. -/
def validatePayouts : List PayoutEntry → Except String Unit
  | [] => .ok ()
  | e :: rest =>
    if e.payout.isFinite = false then .error ("Payout is not finite")
    else
      match e.deposit with
      | some d =>
        if d.isFinite = false then .error ("Deposit is not finite")
        else validatePayouts rest
      | none => validatePayouts rest

/-- Sum of the payouts of the entries of one user (lodash groupBy + sumBy). -/
def userPayoutSum (l : List PayoutEntry) (id : String) : JsNum :=
  sumJs ((l.filter (fun e => e.userId == id)).map (fun e => e.payout))

/-- Sum of the deposits of the entries of one user, a missing deposit counting
as 0 (sumBy with p.deposit ?? 0). -/
def userDepositSum (l : List PayoutEntry) (id : String) : JsNum :=
  sumJs ((l.filter (fun e => e.userId == id)).map (fun e => e.deposit.getD (.finite 0)))

/-- The merge step of checkAndMergePayouts: one output entry per distinct
userId, carrying that user's payout and deposit sums. -/
def mergePayouts (l : List PayoutEntry) : List MergedPayout :=
  ((l.map (fun e => e.userId)).dedup).map
    (fun id => ⟨id, userPayoutSum l id, userDepositSum l id⟩)

/-- checkAndMergePayouts (functions/src/utils.ts lines 280-304): validate the
whole list, then group by userId and sum payouts and deposits. -/
def checkAndMergePayouts (l : List PayoutEntry) : Except String (List MergedPayout) :=
  match validatePayouts l with
  | .error e => .error e
  | .ok _ => .ok (mergePayouts l)

/-- One updateUserBalance call: userId, balance delta, deposit delta. -/
structure BalanceUpdate where
  userId : String
  balanceDelta : JsNum
  depositDelta : JsNum
deriving DecidableEq, Repr

/-- payUser (functions/src/utils.ts lines 271-278): throw unless the payout is
finite, otherwise perform a single balance update. -/
def payUser (userId : String) (payout : JsNum) (isDeposit : Bool) :
    Except String BalanceUpdate :=
  if payout.isFinite = false then .error ("Payout is not finite")
  else .ok ⟨userId, payout, if isDeposit then payout else .finite 0⟩

/-- payUsers (functions/src/utils.ts lines 307-319): validate and merge the
whole payouts list, then emit one balance update per merged entry.  An error
result carries no updates, matching the source control flow in which the
validation loop completes before the first updateUserBalance call. -/
def payUsers (l : List PayoutEntry) : Except String (List BalanceUpdate) :=
  match checkAndMergePayouts l with
  | .error e => .error e
  | .ok merged => .ok (merged.map (fun m => ⟨m.userId, m.payout, m.deposit⟩))

/-- Whether an Except result is a success. -/
def exOk {ε α : Type} : Except ε α → Bool
  | .ok _ => true
  | .error _ => false

/-! Settlement: resolution outcomes and per-bet payout. -/

/-- A binary outcome a bet can be on. -/
inductive Outcome where
  | yes
  | no
deriving DecidableEq, Repr

/-- A resolution of a binary market: YES, NO, MKT at a probability, CANCEL. -/
inductive Resolution where
  | yes
  | no
  | mkt (prob : ℚ)
  | cancel
deriving DecidableEq, Repr

/-- A bet as needed for settlement: its outcome, the money wagered and the
shares held. -/
structure Bet where
  outcome : Outcome
  amount : ℚ
  shares : ℚ
deriving DecidableEq, Repr

/-- Modelled from the spec: the resolved-payout function of common/calculate is
not under src.  Spec section 4.4: a YES or NO resolution pays the shares held
in the winning outcome and 0 on the losing outcome; MKT at probability r pays
shares * r for YES shares and shares * (1 - r) for NO shares; CANCEL pays the
original amount wagered. -/
def calculatePayout (res : Resolution) (bet : Bet) : ℚ :=
  match res with
  | .yes => if bet.outcome = .yes then bet.shares else 0
  | .no => if bet.outcome = .no then bet.shares else 0
  | .mkt r => if bet.outcome = .yes then bet.shares * r else bet.shares * (1 - r)
  | .cancel => bet.amount

/-! The bets-list contract filters (web/components/bet/bets-list.tsx). -/

/-- The fields of a contract the FILTERS record reads: an optional resolution
time and an optional close time (milliseconds since epoch, modelled as ℚ). -/
structure BLContract where
  resolutionTime : Option ℚ
  closeTime : Option ℚ
deriving DecidableEq, Repr

/-- FILTERS.resolved (bets-list.tsx line 162): the contract has a
resolutionTime. -/
def filterResolved (c : BLContract) : Bool :=
  c.resolutionTime.isSome

/-- FILTERS.closed (bets-list.tsx lines 163-164): not resolved, and
closeTime ?? Infinity is before now (a missing closeTime never closes). -/
def filterClosed (now : ℚ) (c : BLContract) : Bool :=
  !filterResolved c &&
    (match c.closeTime with
     | some t => decide (t < now)
     | none => false)

/-- FILTERS.open (bets-list.tsx line 165): neither closed nor resolved. -/
def filterOpen (now : ℚ) (c : BLContract) : Bool :=
  !(filterClosed now c || filterResolved c)

/-! Pricing and the limit-order panel arithmetic. -/

/-- Modelled from the spec: getCpmmProbability of common/calculate-cpmm is not
under src.  Spec section 4.1 gives the weighted constant-product price
prob = p * poolNo / (p * poolNo + (1 - p) * poolYes). -/
def getCpmmProbability (poolYes poolNo p : ℚ) : ℚ :=
  p * poolNo / (p * poolNo + (1 - p) * poolYes)

/-- lodash clamp: clamp a number to the inclusive bounds [lo, hi]. -/
def clamp (x lo hi : ℚ) : ℚ := min (max x lo) hi

/-- The YES limit probability of the LimitOrderPanel (part_000 lines 509-512):
the percent input divided by 100 and clamped to [0.001, 0.999]. -/
def yesLimitProbOf (lowLimitProb : Option ℚ) : Option ℚ :=
  lowLimitProb.map (fun x => clamp (x / 100) (1 / 1000) (999 / 1000))

/-- The NO limit probability of the LimitOrderPanel (part_000 lines 513-516):
the percent input divided by 100 and clamped to [0.001, 0.999]. -/
def noLimitProbOf (highLimitProb : Option ℚ) : Option ℚ :=
  highLimitProb.map (fun x => clamp (x / 100) (1 / 1000) (999 / 1000))

/-- The shares computation of the LimitOrderPanel (part_000 lines 519-526):
with both probabilities set the minimum of the two per-side share counts,
with one set that side's count, otherwise 0. -/
def sharesOf (amount : ℚ) (yesLimitProb noLimitProb : Option ℚ) : ℚ :=
  match yesLimitProb, noLimitProb with
  | some yp, some np => min (amount / yp) (amount / (1 - np))
  | some yp, none => amount / yp
  | none, some np => amount / (1 - np)
  | none, none => 0

/-- yesAmount (part_000 line 528): shares * (yesLimitProb ?? 1). -/
def yesAmountOf (amount : ℚ) (yesLimitProb noLimitProb : Option ℚ) : ℚ :=
  sharesOf amount yesLimitProb noLimitProb * (yesLimitProb.getD 1)

/-- noAmount (part_000 line 529): shares * (1 - (noLimitProb ?? 0)). -/
def noAmountOf (amount : ℚ) (yesLimitProb noLimitProb : Option ℚ) : ℚ :=
  sharesOf amount yesLimitProb noLimitProb * (1 - noLimitProb.getD 0)

/-! The LimitOrderPanel submit guard and the calls it issues. -/

/-- The contract fields the limit-order entry path can see. -/
structure PanelContract where
  id : String
  isResolved : Bool
  closeTime : Option ℚ
deriving DecidableEq, Repr

/-- The LimitOrderPanel state feeding submitBet: the entered amount, the two
percent limit inputs, the isSubmitting flag and whether an error is set. -/
structure PanelState where
  betAmount : Option ℚ
  lowLimitProb : Option ℚ
  highLimitProb : Option ℚ
  isSubmitting : Bool
  hasError : Bool
deriving DecidableEq, Repr

/-- JS truthiness of the optional bet amount (the !betAmount and !!betAmount
tests): undefined and 0 are falsy. -/
def truthyAmount : Option ℚ → Bool
  | none => false
  | some a => decide (a ≠ 0)

/-- rangeError (part_000 lines 486-489): both limits set and YES limit at or
above NO limit. -/
def rangeError (st : PanelState) : Bool :=
  match st.lowLimitProb, st.highLimitProb with
  | some lo, some hi => decide (hi ≤ lo)
  | _, _ => false

/-- outOfRangeError (part_000 lines 491-495): a set limit percent at or below
0 or at or above 100. -/
def outOfRangeError (st : PanelState) : Bool :=
  (match st.lowLimitProb with
   | some lo => decide (lo ≤ 0 ∨ 100 ≤ lo)
   | none => false) ||
  (match st.highLimitProb with
   | some hi => decide (hi ≤ 0 ∨ 100 ≤ hi)
   | none => false)

/-- hasYesLimitBet (part_000 line 497). -/
def hasYesLimitBet (st : PanelState) : Bool :=
  st.lowLimitProb.isSome && truthyAmount st.betAmount

/-- hasNoLimitBet (part_000 line 498). -/
def hasNoLimitBet (st : PanelState) : Bool :=
  st.highLimitProb.isSome && truthyAmount st.betAmount

/-- hasTwoBets (part_000 line 499). -/
def hasTwoBets (st : PanelState) : Bool :=
  hasYesLimitBet st && hasNoLimitBet st

/-- betDisabled (part_000 lines 501-507). -/
def betDisabled (st : PanelState) : Bool :=
  st.isSubmitting || !truthyAmount st.betAmount || rangeError st ||
    outOfRangeError st || st.hasError ||
    (!hasYesLimitBet st && !hasNoLimitBet st)

/-- The payload of one placeBet API call. -/
structure PlaceBetCall where
  outcome : Outcome
  amount : ℚ
  limitProb : Option ℚ
  contractId : String
deriving DecidableEq, Repr

/-- The placeBet calls issued by submitBet of the LimitOrderPanel (part_000
lines 535-561): nothing without a user or when betDisabled; two calls with the
per-side amounts when both limits are set; otherwise one call with the raw
entered amount and the set side's clamped limit probability. -/
def submitBetCalls (user : Bool) (contract : PanelContract) (st : PanelState) :
    List PlaceBetCall :=
  if !user || betDisabled st then []
  else
    let yp := yesLimitProbOf st.lowLimitProb
    let np := noLimitProbOf st.highLimitProb
    let amount := st.betAmount.getD 0
    if hasTwoBets st then
      [⟨.yes, yesAmountOf amount yp np, yp, contract.id⟩,
       ⟨.no, noAmountOf amount yp np, np, contract.id⟩]
    else if hasYesLimitBet st then
      [⟨.yes, amount, yp, contract.id⟩]
    else
      [⟨.no, amount, np, contract.id⟩]

/-- The error kinds of the backend order validation. -/
inductive ApiErr where
  | invalidOrder
deriving DecidableEq, Repr

/-- Modelled from the spec: the backend bet-placement validation behind the
placeBet API is not under src.  Spec section 4.2 item 4: the order fails with
InvalidOrder when the amount is at most 0, when the limit probability lies
outside the open interval (0, 1), or when the contract is already resolved or
closed.  No bet is created on failure. -/
def placeBetCheck (now : ℚ) (c : PanelContract) (call : PlaceBetCall) :
    Except ApiErr Unit :=
  if call.amount ≤ 0 then .error .invalidOrder
  else if (match call.limitProb with
           | some lp => decide (lp ≤ 0 ∨ 1 ≤ lp)
           | none => false) then .error .invalidOrder
  else if c.isResolved then .error .invalidOrder
  else if (match c.closeTime with
           | some t => decide (t ≤ now)
           | none => false) then .error .invalidOrder
  else .ok ()

/-! The pool-side trade. -/

/-- Modelled from the spec: the CPMM purchase function of common/calculate-cpmm
is not under src.  Spec sections 4.1, 4.2 and 8: the unmatched amount trades
against the pool by the constant-product formula with the fee taken from the
money leg; with weight p = 1/2 (the value of the scenario in spec section 8) a
YES buy of net amount b = amount - fee adds b to the NO reserve and leaves the
YES reserve holding poolYes * poolNo / (poolNo + b), restoring the product of
reserves; the removed YES shares go to the buyer. -/
def poolTradeYes (poolYes poolNo amount fee : ℚ) : ℚ × ℚ :=
  let b := amount - fee
  (poolYes * poolNo / (poolNo + b), poolNo + b)

/-! The limit-order state machine. -/

/-- A limit order as the matching engine sees it: the total requested
orderAmount, the amounts of the fills recorded so far, and the isFilled and
isCancelled flags. -/
structure LimitOrder where
  orderAmount : ℚ
  fillAmounts : List ℚ
  isFilled : Bool
  isCancelled : Bool
deriving DecidableEq, Repr

/-- The remaining amount of a limit order: orderAmount - sum(fills.amount). -/
def remainingAmount (o : LimitOrder) : ℚ :=
  o.orderAmount - o.fillAmounts.sum

/-- Modelled from the spec: the matching engine of common/new-bet is not under
src.  Spec sections 4.2 and 4.3: per order the state machine is Open, then
partially filled states, then Filled or Cancelled, both terminal; a fill
consumes a positive amount no larger than the remaining amount and flips
isFilled when it exhausts the order; cancellation is a separate transition on
an open order. -/
inductive OrderStep : LimitOrder → LimitOrder → Prop where
  | fill (o : LimitOrder) (f : ℚ)
      (hopen : o.isFilled = false ∧ o.isCancelled = false)
      (hpos : 0 < f) (hle : f ≤ remainingAmount o) :
      OrderStep o ⟨o.orderAmount, f :: o.fillAmounts,
        decide (remainingAmount o = f), false⟩
  | cancel (o : LimitOrder)
      (hopen : o.isFilled = false ∧ o.isCancelled = false) :
      OrderStep o ⟨o.orderAmount, o.fillAmounts, false, true⟩

/-- The bet fields the open-limit-order filter of ContractBets reads. -/
structure BetRecord where
  limitProb : Option ℚ
  isCancelled : Bool
  isFilled : Bool
deriving DecidableEq, Repr

/-- The open limit orders of a contract as computed by ContractBets
(bets-list.tsx lines 336-338): bets with a limitProb that are neither
cancelled nor filled. -/
def limitBetsOf (bets : List BetRecord) : List BetRecord :=
  bets.filter (fun b => b.limitProb.isSome && !b.isCancelled && !b.isFilled)

/-! Helper lemmas. -/

/-- A finite JsNum is finite. -/
theorem JsNum.isFinite_finite (q : ℚ) : (JsNum.finite q).isFinite = true := rfl

/-- The validation loop succeeds exactly when every payout is finite and every
defined deposit is finite. -/
theorem validatePayouts_ok_iff (l : List PayoutEntry) :
    validatePayouts l = .ok () ↔
      ∀ e ∈ l, e.payout.isFinite = true ∧
        (e.deposit.getD (.finite 0)).isFinite = true := by
  induction l with
  | nil => simp [validatePayouts]
  | cons e rest ih =>
    cases hp : e.payout.isFinite with
    | false =>
      simp only [validatePayouts, hp, if_pos, List.forall_mem_cons]
      constructor
      · intro h; exact absurd h (by simp)
      · intro h; exact absurd h.1.1 (by simp [hp])
    | true =>
      cases hd : e.deposit with
      | none =>
        simp [validatePayouts, hp, hd, ih, JsNum.isFinite_finite]
      | some d =>
        cases hf : d.isFinite with
        | false =>
          simp only [validatePayouts, hp, hd, hf, List.forall_mem_cons]
          constructor
          · intro h; exact absurd h (by simp)
          · intro h; exact absurd h.1.2 (by simp [hd, hf])
        | true =>
          simp [validatePayouts, hp, hd, hf, ih]

/-- A sum of finite JS numbers is finite, with the expected rational value. -/
theorem sumJs_finite (xs : List JsNum) (h : ∀ x ∈ xs, x.isFinite = true) :
    sumJs xs = .finite ((xs.map JsNum.toRat).sum) := by
  induction xs with
  | nil => rfl
  | cons x xs ih =>
    have hx := h x (List.mem_cons_self x xs)
    have hxs := fun y hy => h y (List.mem_cons_of_mem x hy)
    rcases x with q | _ | _ | _ <;> simp [JsNum.isFinite] at hx
    show JsNum.add (.finite q) (sumJs xs) = _
    rw [ih hxs]
    simp [JsNum.add, JsNum.toRat]

/-- Splitting a mapped sum along a Boolean predicate. -/
theorem sum_map_filter_not_add {α : Type} (p : α → Bool) (val : α → ℚ)
    (l : List α) :
    ((l.filter p).map val).sum + ((l.filter (fun x => !p x)).map val).sum
      = (l.map val).sum := by
  induction l with
  | nil => simp
  | cons x l ih =>
    cases hx : p x <;>
      simp only [List.filter_cons, hx, Bool.not_false, Bool.not_true,
        if_pos, if_neg, List.map_cons, List.sum_cons, Bool.false_eq_true,
        Bool.true_eq_false, ite_true, ite_false] <;>
      linarith [ih]

/-- Summing fiberwise over a duplicate-free complete list of keys gives the
total sum. -/
theorem sum_fibers {α : Type} (key : α → String) (val : α → ℚ) :
    ∀ (K : List String) (l : List α), K.Nodup → (∀ e ∈ l, key e ∈ K) →
      (K.map (fun k => ((l.filter (fun e => key e == k)).map val).sum)).sum
        = (l.map val).sum := by
  intro K
  induction K with
  | nil =>
    intro l _ hcov
    have hl : l = [] := by
      cases l with
      | nil => rfl
      | cons e l => exact absurd (hcov e (List.mem_cons_self e l)) (List.not_mem_nil _)
    subst hl; simp
  | cons k K ih =>
    intro l hnd hcov
    have hnd₂ : K.Nodup := (List.nodup_cons.mp hnd).2
    have hknotin : k ∉ K := (List.nodup_cons.mp hnd).1
    have hcov₂ : ∀ e ∈ l.filter (fun e => !(key e == k)), key e ∈ K := by
      intro e he
      rcases List.mem_filter.mp he with ⟨hel, hke⟩
      have hne : key e ≠ k := by simpa using hke
      rcases List.mem_cons.mp (hcov e hel) with h | h
      · exact absurd h hne
      · exact h
    have hfib : ∀ k₂ ∈ K,
        l.filter (fun e => key e == k₂)
          = (l.filter (fun e => !(key e == k))).filter (fun e => key e == k₂) := by
      intro k₂ hk₂
      have hk₂k : k₂ ≠ k := fun heq => hknotin (heq ▸ hk₂)
      rw [List.filter_filter]
      apply List.filter_congr
      intro e _
      by_cases h : key e = k₂
      · simp [h, hk₂k]
      · simp [h]
    calc (((k :: K).map
            (fun k₂ => ((l.filter (fun e => key e == k₂)).map val).sum)).sum)
        = ((l.filter (fun e => key e == k)).map val).sum
            + (K.map (fun k₂ =>
                ((l.filter (fun e => key e == k₂)).map val).sum)).sum := by
          simp
      _ = ((l.filter (fun e => key e == k)).map val).sum
            + (K.map (fun k₂ =>
                (((l.filter (fun e => !(key e == k))).filter
                    (fun e => key e == k₂)).map val).sum)).sum := by
          congr 1
          refine congrArg List.sum ?_
          apply List.map_congr_left
          intro k₂ hk₂
          rw [hfib k₂ hk₂]
      _ = ((l.filter (fun e => key e == k)).map val).sum
            + ((l.filter (fun e => !(key e == k))).map val).sum := by
          rw [ih (l.filter (fun e => !(key e == k))) hnd₂ hcov₂]
      _ = (l.map val).sum := sum_map_filter_not_add _ val l

/-! Claim theorems. -/

/-- Claim C1: payUser throws exactly when its payout argument is not finite,
and payUsers throws whenever some entry of the payouts list has a non-finite
payout or a defined non-finite deposit; a throwing run carries no balance
update, the validation of the whole list preceding every updateUserBalance
call. -/
theorem payUser_payUsers_reject_nonfinite :
    (∀ (u : String) (p : JsNum) (d : Bool), exOk (payUser u p d) = p.isFinite) ∧
    (∀ l : List PayoutEntry,
      (∃ e ∈ l, e.payout.isFinite = false ∨
          (e.deposit.getD (.finite 0)).isFinite = false) →
      exOk (payUsers l) = false) := by
  constructor
  · intro u p d
    cases hp : p.isFinite <;> simp [payUser, exOk, hp]
  · rintro l ⟨e, he, hbad⟩
    have hnotok : ¬(validatePayouts l = .ok ()) := by
      rw [validatePayouts_ok_iff]
      intro hall
      rcases hall e he with ⟨h1, h2⟩
      rcases hbad with h | h
      · rw [h1] at h; exact Bool.noConfusion h
      · rw [h2] at h; exact Bool.noConfusion h
    cases hv : validatePayouts l with
    | error msg => simp [payUsers, checkAndMergePayouts, hv, exOk]
    | ok u => cases u; exact absurd hv hnotok

/-- Witness for C1 at a concrete one-element list with a NaN payout. -/
theorem payUser_payUsers_reject_nonfinite_witness :
    (∃ e ∈ [(⟨"alice", JsNum.nan, none⟩ : PayoutEntry)],
        e.payout.isFinite = false ∨
          (e.deposit.getD (.finite 0)).isFinite = false) ∧
      exOk (payUsers [(⟨"alice", JsNum.nan, none⟩ : PayoutEntry)]) = false := by
  have hbad : ∃ e ∈ [(⟨"alice", JsNum.nan, none⟩ : PayoutEntry)],
      e.payout.isFinite = false ∨
        (e.deposit.getD (.finite 0)).isFinite = false :=
    ⟨⟨"alice", JsNum.nan, none⟩, List.mem_singleton_self _, Or.inl rfl⟩
  exact ⟨hbad, payUser_payUsers_reject_nonfinite.2 _ hbad⟩

/-- Claim C8: on an all-finite payouts list, checkAndMergePayouts returns
(rather than throws) exactly one entry per distinct userId, carrying the sum
of that user's payouts and the sum of its deposits with a missing deposit
counting as 0, and the total payout over the output equals the total payout
over the input. -/
theorem checkAndMergePayouts_merges (l : List PayoutEntry)
    (hfin : ∀ e ∈ l, e.payout.isFinite = true ∧
        (e.deposit.getD (.finite 0)).isFinite = true) :
    checkAndMergePayouts l = .ok (mergePayouts l) ∧
    ((mergePayouts l).map (fun m => m.userId)).Nodup ∧
    (∀ id : String,
      id ∈ (mergePayouts l).map (fun m => m.userId) ↔
        id ∈ l.map (fun e => e.userId)) ∧
    (∀ m ∈ mergePayouts l,
      m.payout = .finite (((l.filter (fun e => e.userId == m.userId)).map
          (fun e => e.payout.toRat)).sum) ∧
      m.deposit = .finite (((l.filter (fun e => e.userId == m.userId)).map
          (fun e => (e.deposit.getD (.finite 0)).toRat)).sum)) ∧
    ((mergePayouts l).map (fun m => m.payout.toRat)).sum
      = (l.map (fun e => e.payout.toRat)).sum := by
  have hpay : ∀ id : String, userPayoutSum l id
      = .finite (((l.filter (fun e => e.userId == id)).map
          (fun e => e.payout.toRat)).sum) := by
    intro id
    unfold userPayoutSum
    rw [sumJs_finite]
    · rw [List.map_map]; rfl
    · intro x hx
      rcases List.mem_map.mp hx with ⟨e, he, hex⟩
      rw [← hex]
      exact (hfin e (List.mem_filter.mp he).1).1
  have hdep : ∀ id : String, userDepositSum l id
      = .finite (((l.filter (fun e => e.userId == id)).map
          (fun e => (e.deposit.getD (.finite 0)).toRat)).sum) := by
    intro id
    unfold userDepositSum
    rw [sumJs_finite]
    · rw [List.map_map]; rfl
    · intro x hx
      rcases List.mem_map.mp hx with ⟨e, he, hex⟩
      rw [← hex]
      exact (hfin e (List.mem_filter.mp he).1).2
  refine ⟨?_, ?_, ?_, ?_, ?_⟩
  · have hok : validatePayouts l = .ok () := (validatePayouts_ok_iff l).mpr hfin
    simp [checkAndMergePayouts, hok]
  · have : (mergePayouts l).map (fun m => m.userId)
        = (l.map (fun e => e.userId)).dedup := by
      simp [mergePayouts, Function.comp_def]
    rw [this]
    exact List.nodup_dedup _
  · intro id
    have : (mergePayouts l).map (fun m => m.userId)
        = (l.map (fun e => e.userId)).dedup := by
      simp [mergePayouts, Function.comp_def]
    rw [this]
    exact List.mem_dedup
  · intro m hm
    rcases List.mem_map.mp hm with ⟨id, _, hid⟩
    rw [← hid]
    exact ⟨hpay id, hdep id⟩
  · have hmap : (mergePayouts l).map (fun m => m.payout.toRat)
        = ((l.map (fun e => e.userId)).dedup).map
            (fun id => ((l.filter (fun e => e.userId == id)).map
              (fun e => e.payout.toRat)).sum) := by
      unfold mergePayouts
      rw [List.map_map]
      apply List.map_congr_left
      intro id _
      show (userPayoutSum l id).toRat = _
      rw [hpay id]
      rfl
    rw [hmap]
    exact sum_fibers (fun e : PayoutEntry => e.userId)
      (fun e : PayoutEntry => e.payout.toRat)
      ((l.map (fun e => e.userId)).dedup) l (List.nodup_dedup _)
      (fun e he => List.mem_dedup.mpr (List.mem_map_of_mem _ he))

/-- Witness for C8 at a concrete list with a duplicated userId. -/
theorem checkAndMergePayouts_merges_witness :
    (∀ e ∈ [(⟨"a", .finite 1, none⟩ : PayoutEntry),
        ⟨"b", .finite 2, some (.finite 3)⟩, ⟨"a", .finite 4, some (.finite 5)⟩],
      e.payout.isFinite = true ∧
        (e.deposit.getD (.finite 0)).isFinite = true) ∧
    ((mergePayouts [(⟨"a", .finite 1, none⟩ : PayoutEntry),
        ⟨"b", .finite 2, some (.finite 3)⟩,
        ⟨"a", .finite 4, some (.finite 5)⟩]).map
      (fun m => m.payout.toRat)).sum
      = ([(⟨"a", .finite 1, none⟩ : PayoutEntry),
          ⟨"b", .finite 2, some (.finite 3)⟩,
          ⟨"a", .finite 4, some (.finite 5)⟩].map
        (fun e => e.payout.toRat)).sum := by
  refine ⟨by decide, ?_⟩
  exact (checkAndMergePayouts_merges _ (by decide)).2.2.2.2

/-- Claim C2: a bet on a market resolved to CANCEL is paid back its original
amount wagered, whatever its shares and outcome. -/
theorem calculatePayout_cancel_refunds_amount (bet : Bet) :
    calculatePayout .cancel bet = bet.amount := rfl

/-- Claim C10: for every contract and fixed current time, exactly one of the
resolved, closed and open bet-list filters holds. -/
theorem filters_partition (now : ℚ) (c : BLContract) :
    (filterResolved c = true ∨ filterClosed now c = true ∨
        filterOpen now c = true) ∧
    ¬(filterResolved c = true ∧ filterClosed now c = true) ∧
    ¬(filterResolved c = true ∧ filterOpen now c = true) ∧
    ¬(filterClosed now c = true ∧ filterOpen now c = true) := by
  unfold filterOpen filterClosed filterResolved
  rcases c with ⟨rt, ct⟩
  rcases rt with _ | t₁ <;> rcases ct with _ | t₂ <;>
    simp only [Option.isSome_none, Option.isSome_some, Bool.not_true,
      Bool.not_false, Bool.true_and, Bool.false_and, Bool.and_true,
      Bool.and_false, Bool.or_true, Bool.true_or, Bool.false_or,
      Bool.or_false] <;>
    first
      | (by_cases h : t₂ < now <;> simp [h])
      | simp

/-- The clamp of the limit panel stays within [0.001, 0.999]. -/
theorem clamp_limit_bounds (x : ℚ) :
    1 / 1000 ≤ clamp x (1 / 1000) (999 / 1000) ∧
      clamp x (1 / 1000) (999 / 1000) ≤ 999 / 1000 := by
  constructor
  · exact le_min (le_max_right _ _) (by norm_num)
  · exact min_le_right _ _

/-- Claim C4: for every pool with positive reserves and weight p in (0,1) the
CPMM probability lies strictly between 0 and 1, and the limit probabilities
derived from the user percent inputs are clamped into (0,1). -/
theorem cpmm_probability_bounds :
    (∀ y n p : ℚ, 0 < y → 0 < n → 0 < p → p < 1 →
        0 < getCpmmProbability y n p ∧ getCpmmProbability y n p < 1) ∧
    (∀ x : ℚ, ∃ q, yesLimitProbOf (some x) = some q ∧ 0 < q ∧ q < 1) ∧
    (∀ x : ℚ, ∃ q, noLimitProbOf (some x) = some q ∧ 0 < q ∧ q < 1) := by
  refine ⟨?_, ?_, ?_⟩
  · intro y n p hy hn hp hp1
    have hnum : 0 < p * n := mul_pos hp hn
    have hy1 : 0 < (1 - p) * y := mul_pos (by linarith) hy
    have hden : 0 < p * n + (1 - p) * y := by linarith
    constructor
    · exact div_pos hnum hden
    · rw [getCpmmProbability, div_lt_one hden]
      linarith
  · intro x
    refine ⟨clamp (x / 100) (1 / 1000) (999 / 1000), rfl, ?_, ?_⟩
    · have := (clamp_limit_bounds (x / 100)).1
      linarith
    · have := (clamp_limit_bounds (x / 100)).2
      linarith
  · intro x
    refine ⟨clamp (x / 100) (1 / 1000) (999 / 1000), rfl, ?_, ?_⟩
    · have := (clamp_limit_bounds (x / 100)).1
      linarith
    · have := (clamp_limit_bounds (x / 100)).2
      linarith

/-- Witness for C4 at the pool of the spec scenario and a 10 percent input. -/
theorem cpmm_probability_bounds_witness :
    ((0 : ℚ) < 100 ∧ (0 : ℚ) < 1 / 2 ∧ (1 : ℚ) / 2 < 1) ∧
      (0 < getCpmmProbability 100 100 (1 / 2) ∧
        getCpmmProbability 100 100 (1 / 2) < 1) := by
  refine ⟨⟨by norm_num, by norm_num, by norm_num⟩, ?_⟩
  exact cpmm_probability_bounds.1 100 100 (1 / 2) (by norm_num) (by norm_num)
    (by norm_num) (by norm_num)

/-- Claim C9: with both limit probabilities set, the per-side order amounts of
the LimitOrderPanel never exceed the entered maximum amount. -/
theorem limitPanel_amounts_within_max (a yp np : ℚ) (ha : 0 ≤ a)
    (hyp0 : 0 < yp) (hyp1 : yp < 1) (hnp0 : 0 < np) (hnp1 : np < 1) :
    yesAmountOf a (some yp) (some np) ≤ a ∧
      noAmountOf a (some yp) (some np) ≤ a := by
  have hnp : 0 < 1 - np := by linarith
  constructor
  · calc yesAmountOf a (some yp) (some np)
        = min (a / yp) (a / (1 - np)) * yp := rfl
      _ ≤ (a / yp) * yp :=
        mul_le_mul_of_nonneg_right (min_le_left _ _) (le_of_lt hyp0)
      _ = a := div_mul_cancel₀ a (ne_of_gt hyp0)
  · calc noAmountOf a (some yp) (some np)
        = min (a / yp) (a / (1 - np)) * (1 - np) := rfl
      _ ≤ (a / (1 - np)) * (1 - np) :=
        mul_le_mul_of_nonneg_right (min_le_right _ _) (le_of_lt hnp)
      _ = a := div_mul_cancel₀ a (ne_of_gt hnp)

/-- Witness for C9 at amount 10 with YES limit 0.1 and NO limit 0.9. -/
theorem limitPanel_amounts_within_max_witness :
    ((0 : ℚ) ≤ 10 ∧ (0 : ℚ) < 1 / 10 ∧ (1 : ℚ) / 10 < 1 ∧
        (0 : ℚ) < 9 / 10 ∧ (9 : ℚ) / 10 < 1) ∧
      (yesAmountOf 10 (some (1 / 10)) (some (9 / 10)) ≤ 10 ∧
        noAmountOf 10 (some (1 / 10)) (some (9 / 10)) ≤ 10) := by
  refine ⟨⟨by norm_num, by norm_num, by norm_num, by norm_num, by norm_num⟩, ?_⟩
  exact limitPanel_amounts_within_max 10 (1 / 10) (9 / 10) (by norm_num)
    (by norm_num) (by norm_num) (by norm_num) (by norm_num)

/-- Counterexample to claim C5 as stated: in the fee-free scenario of the spec
(pool YES 100, NO 100, a 50 buy at 0 percent fee), the linear conservation
poolYes + poolNo + amount = poolYes2 + poolNo2 + fees fails for the
constant-product pool trade. -/
theorem poolTrade_sum_not_conserved :
    ¬((100 : ℚ) + 100 + 50
        = (poolTradeYes 100 100 50 0).1 + (poolTradeYes 100 100 50 0).2 + 0) := by
  norm_num [poolTradeYes]

/-- Claim C5 (amended): a pool-side trade conserves the product of the pool
reserves, not their sum: poolYes2 * poolNo2 = poolYes * poolNo whenever the
post-trade NO reserve is positive. -/
theorem poolTrade_product_conserved (y n a fee : ℚ)
    (h : 0 < n + (a - fee)) :
    (poolTradeYes y n a fee).1 * (poolTradeYes y n a fee).2 = y * n := by
  have hne : n + (a - fee) ≠ 0 := ne_of_gt h
  show y * n / (n + (a - fee)) * (n + (a - fee)) = y * n
  exact div_mul_cancel₀ _ hne

/-- Witness for amended C5 at the spec scenario pool. -/
theorem poolTrade_product_conserved_witness :
    ((0 : ℚ) < 100 + (50 - 0)) ∧
      (poolTradeYes 100 100 50 0).1 * (poolTradeYes 100 100 50 0).2
        = 100 * 100 := by
  refine ⟨by norm_num, ?_⟩
  exact poolTrade_product_conserved 100 100 50 0 (by norm_num)

/-- Counterexample to claim C3 as stated: on a contract that is already
resolved, submitBet of the LimitOrderPanel still issues a placeBet call (for a
valid amount of 10 and a YES limit input of 10 percent), because its guard
never consults the contract resolution or close state. -/
theorem submitBet_calls_on_resolved_contract :
    (⟨"c1", true, none⟩ : PanelContract).isResolved = true ∧
    submitBetCalls true ⟨"c1", true, none⟩ ⟨some 10, some 10, none, false, false⟩
      = [⟨.yes, 10, some (1 / 10), "c1"⟩] := by
  constructor
  · rfl
  · have hclamp : clamp ((1 : ℚ) / 10) (1 / 1000) (999 / 1000) = 1 / 10 := by
      unfold clamp
      rw [max_eq_left (by norm_num), min_eq_left (by norm_num)]
    simp only [submitBetCalls, betDisabled, truthyAmount, rangeError,
      outOfRangeError, hasYesLimitBet, hasNoLimitBet, hasTwoBets,
      yesLimitProbOf, noLimitProbOf, Option.map_some, Option.map_none,
      Option.isSome_some, Option.isSome_none, Option.getD_some]
    norm_num [hclamp]

/-- Claim C3 (amended): the backend order validation, modelled from the spec,
fails with InvalidOrder when the amount is at most 0, the limit probability
lies outside (0,1), or the contract is resolved or closed; the submitBet guard
of the LimitOrderPanel issues no placeBet call when the entered amount is
missing or zero, a limit percent input is out of range or the limits are
inverted, or no limit is set, but it does not itself check resolution or
closure. -/
theorem placeBetCheck_invalid_and_submitBet_guard :
    (∀ (now : ℚ) (c : PanelContract) (call : PlaceBetCall),
        (call.amount ≤ 0 ∨
          (∃ lp, call.limitProb = some lp ∧ (lp ≤ 0 ∨ 1 ≤ lp)) ∨
          c.isResolved = true ∨
          (∃ t, c.closeTime = some t ∧ t ≤ now)) →
        placeBetCheck now c call = .error .invalidOrder) ∧
    (∀ (u : Bool) (c : PanelContract) (st : PanelState),
        (truthyAmount st.betAmount = false ∨ rangeError st = true ∨
          outOfRangeError st = true ∨
          (st.lowLimitProb = none ∧ st.highLimitProb = none)) →
        submitBetCalls u c st = []) := by
  constructor
  · intro now c call h
    unfold placeBetCheck
    by_cases h1 : call.amount ≤ 0
    · rw [if_pos h1]
    · rw [if_neg h1]
      by_cases h2 : (match call.limitProb with
          | some lp => decide (lp ≤ 0 ∨ 1 ≤ lp)
          | none => false) = true
      · rw [if_pos h2]
      · rw [if_neg h2]
        by_cases h3 : c.isResolved = true
        · rw [if_pos h3]
        · rw [if_neg h3]
          by_cases h4 : (match c.closeTime with
              | some t => decide (t ≤ now)
              | none => false) = true
          · rw [if_pos h4]
          · exfalso
            rcases h with h | ⟨lp, hlp, hbad⟩ | h | ⟨t, ht, hle⟩
            · exact h1 h
            · apply h2
              rw [hlp]
              exact decide_eq_true hbad
            · exact h3 h
            · apply h4
              rw [ht]
              exact decide_eq_true hle
  · intro u c st h
    have hd : betDisabled st = true := by
      unfold betDisabled hasYesLimitBet hasNoLimitBet
      rcases h with h | h | h | ⟨h1, h2⟩
      · simp [h]
      · simp [h]
      · simp [h]
      · simp [h1, h2]
    simp [submitBetCalls, hd]

/-- Witness for amended C3: the backend check rejects on a resolved contract,
and the guard issues nothing when no amount and no limits are entered. -/
theorem placeBetCheck_invalid_and_submitBet_guard_witness :
    ((⟨"c2", true, none⟩ : PanelContract).isResolved = true ∧
        truthyAmount (none : Option ℚ) = false) ∧
      placeBetCheck 0 ⟨"c2", true, none⟩ ⟨.yes, 5, none, "c2"⟩
          = .error .invalidOrder ∧
      submitBetCalls true ⟨"c2", false, none⟩ ⟨none, none, none, false, false⟩
          = [] := by
  refine ⟨⟨rfl, rfl⟩, ?_, ?_⟩
  · exact placeBetCheck_invalid_and_submitBet_guard.1 0 _ _
      (Or.inr (Or.inr (Or.inl rfl)))
  · exact placeBetCheck_invalid_and_submitBet_guard.2 true _ _ (Or.inl rfl)

/-- Claim C6: along the limit-order state machine, a remaining amount that
starts non-negative stays non-negative after any sequence of steps, every fill
strictly decreases the remaining amount, no step leaves a Filled or Cancelled
order (those states are terminal), and the open-order list of ContractBets
contains no filled or cancelled bet. -/
theorem limitOrder_fill_invariants :
    (∀ o o₂ : LimitOrder, Relation.ReflTransGen OrderStep o o₂ →
        0 ≤ remainingAmount o → 0 ≤ remainingAmount o₂) ∧
    (∀ o o₂ : LimitOrder, OrderStep o o₂ → o₂.fillAmounts ≠ o.fillAmounts →
        remainingAmount o₂ < remainingAmount o) ∧
    (∀ o o₂ : LimitOrder, OrderStep o o₂ →
        o.isFilled = false ∧ o.isCancelled = false) ∧
    (∀ (bets : List BetRecord) (b : BetRecord), b ∈ limitBetsOf bets →
        b.isFilled = false ∧ b.isCancelled = false) := by
  have hstep : ∀ o o₂ : LimitOrder, OrderStep o o₂ →
      0 ≤ remainingAmount o → 0 ≤ remainingAmount o₂ := by
    intro o o₂ hs h0
    cases hs with
    | fill f hopen hpos hle =>
      unfold remainingAmount at *
      simp only [List.sum_cons]
      linarith
    | cancel hopen =>
      exact h0
  refine ⟨?_, ?_, ?_, ?_⟩
  · intro o o₂ h
    induction h with
    | refl => exact fun h0 => h0
    | tail _ hlast ih => exact fun h0 => hstep _ _ hlast (ih h0)
  · intro o o₂ hs hne
    cases hs with
    | fill f hopen hpos hle =>
      unfold remainingAmount
      simp only [List.sum_cons]
      linarith
    | cancel hopen =>
      exact absurd rfl hne
  · intro o o₂ hs
    cases hs with
    | fill f hopen hpos hle => exact hopen
    | cancel hopen => exact hopen
  · intro bets b hb
    rcases List.mem_filter.mp hb with ⟨_, hcond⟩
    simp only [Bool.and_eq_true, Bool.not_eq_true'] at hcond
    exact ⟨hcond.2, hcond.1.2⟩

/-- Witness for C6: a concrete fill of 4 on an order of 10 with no prior
fills. -/
theorem limitOrder_fill_invariants_witness :
    0 ≤ remainingAmount ⟨10, [4], false, false⟩ ∧
      remainingAmount ⟨10, [4], false, false⟩
        < remainingAmount ⟨10, [], false, false⟩ := by
  have hs : OrderStep ⟨10, [], false, false⟩ ⟨10, [4], false, false⟩ := by
    have h := OrderStep.fill ⟨10, [], false, false⟩ 4 ⟨rfl, rfl⟩ (by norm_num)
      (by norm_num [remainingAmount])
    have hd : decide (remainingAmount ⟨10, [], false, false⟩ = 4) = false := by
      rw [decide_eq_false_iff_not]
      norm_num [remainingAmount]
    rwa [hd] at h
  exact ⟨limitOrder_fill_invariants.1 _ _ (Relation.ReflTransGen.single hs)
      (by norm_num [remainingAmount]),
    limitOrder_fill_invariants.2.1 _ _ hs (by simp)⟩

end Manifold
